/-
  Verification of the origin-authorization engine of related-origin-toolkit
  (src/src/validator.ts) against its natural-language specification.

  The TypeScript core is shallowly embedded as total Lean functions. Its
  external collaborators are passed in as function parameters, mirroring the
  spec's component boundaries:
    - `JSON.parse`    : modelled as `jp : String → Option JSValue`
      (a parse failure is `none`; a success is the parsed JSON value);
    - WHATWG `new URL`: modelled as `up : String → Option URLRec`
      (a thrown TypeError is `none`; the code only ever reads `.hostname`);
    - `psl.parse`     : modelled as `p : String → Option String`
      (the registrable domain / eTLD+1, or `none` when there is none);
    - `fetchWellKnownWebAuthn` : modelled as `fr : String → Except Unit String`
      (network error, non-2xx status, oversize body, timeout and an
      unparsable rpId URL are all throws, collapsed into `.error ()`).

  JavaScript property access on `null` throws a TypeError; since
  `validateWellKnownJSON` reads `webAuthnResp.origins` outside of any
  try/catch, the embedding returns `Except Unit AuthenticatorStatus`, with
  `.error ()` standing for an uncaught exception escaping that function.
  `validateOrigin` wraps both the fetch and the matcher in one try/catch, so
  its embedding is a plain total function into `AuthenticatorStatus`.
-/
import Mathlib

set_option maxHeartbeats 1000000

/-- The outcome enumeration of src/types.ts (`AuthenticatorStatus`). -/
inductive AuthenticatorStatus where
  | SUCCESS
  | BAD_RELYING_PARTY_ID_JSON_PARSE_ERROR
  | BAD_RELYING_PARTY_ID_NO_JSON_MATCH
  | BAD_RELYING_PARTY_ID_NO_JSON_MATCH_HIT_LIMITS
  | BAD_RELYING_PARTY_ID_NOT_SUBDOMAIN_OF_ORIGIN
  deriving DecidableEq, Repr

/-- The wire-stable ordinal of each outcome, as assigned by the
`AuthenticatorStatus` enum in src/types.ts (`SUCCESS = 0`, …). -/
def statusToNat : AuthenticatorStatus → Nat
  | .SUCCESS => 0
  | .BAD_RELYING_PARTY_ID_JSON_PARSE_ERROR => 1
  | .BAD_RELYING_PARTY_ID_NO_JSON_MATCH => 2
  | .BAD_RELYING_PARTY_ID_NO_JSON_MATCH_HIT_LIMITS => 3
  | .BAD_RELYING_PARTY_ID_NOT_SUBDOMAIN_OF_ORIGIN => 4

/-- The slice of a WHATWG `URL` object that validator.ts reads: only the
(normalized) `hostname` field is ever consulted. -/
structure URLRec where
  hostname : String
  deriving DecidableEq, Repr

/-- Parsed JSON values, the codomain of the black-box `JSON.parse`
collaborator (`JSON.parse` never yields `undefined`). -/
inductive JSValue where
  | null
  | bool (b : Bool)
  | num (n : Int)
  | str (s : String)
  | arr (elems : List JSValue)
  | obj (fields : List (String × JSValue))

/-- `CONSTANTS.MAX_LABELS` from src/types.ts. -/
def maxLabels : Nat := 5

/-! ### Raw-string utilities

validator.ts manipulates raw strings with `indexOf`, `substring`, `split`
and `endsWith`.  These are embedded as structurally recursive functions on
`List Char` so that every concrete instance reduces inside the kernel. -/

/-- `domain.indexOf('.') !== -1`: the list contains a dot. -/
def hasDot : List Char → Bool
  | [] => false
  | c :: t => if c = '.' then true else hasDot t

/-- `s.substring(0, s.indexOf('.'))`: the characters before the first dot
(the whole list when there is no dot). -/
def untilDot : List Char → List Char
  | [] => []
  | c :: t => if c = '.' then [] else c :: untilDot t

/-- `s.split('/')[0]`: the characters before the first `'/'`. -/
def untilSlash : List Char → List Char
  | [] => []
  | c :: t => if c = '/' then [] else c :: untilSlash t

/-- Split at the first occurrence of the separator `"://"` (as JavaScript's
`s.split('://')` does between elements 0 and 1): `some (before, after)`
when the separator occurs, `none` otherwise. -/
def breakSep : List Char → Option (List Char × List Char)
  | [] => none
  | ':' :: '/' :: '/' :: rest => some ([], rest)
  | c :: rest =>
    match breakSep rest with
    | none => none
    | some (bef, aft) => some (c :: bef, aft)

/-- `l` starts with `t` (element-wise). -/
def listStartsWith : List Char → List Char → Bool
  | _, [] => true
  | [], _ :: _ => false
  | a :: s, b :: t => if a = b then listStartsWith s t else false

/-- JavaScript `s.endsWith(t)`. -/
def strEndsWith (s t : String) : Bool :=
  listStartsWith s.data.reverse t.data.reverse

/-- `originStr.split('://')[0]`: the raw scheme part — everything before the
first `"://"`, or the whole string when the separator is absent. -/
def schemeOf (s : String) : String :=
  ⟨match breakSep s.data with
   | none => s.data
   | some (bef, _) => bef⟩

/-- `originStr.split('://')[1]` — the characters between the first and the
second occurrence of `"://"` — or `none` when the separator is absent. -/
def afterSep (s : String) : Option (List Char) :=
  match breakSep s.data with
  | none => none
  | some (_, aft) =>
    some (match breakSep aft with
          | none => aft
          | some (bef2, _) => bef2)

/-- `originStr.split('://')[1]?.split('/')[0] || ''`: the raw host(+port)
part of an origin string. -/
def hostOf (s : String) : String :=
  ⟨match afterSep s with
   | none => []
   | some t => untilSlash t⟩

/-- The element-vs-caller comparison of validateWellKnownJSON (validator.ts
lines 121–126): case-sensitive string equality of the raw scheme parts and
of the raw host(+port) parts. -/
def originMatches (callerOrigin originStr : String) : Bool :=
  schemeOf originStr == schemeOf callerOrigin
    && hostOf originStr == hostOf callerOrigin

/-! ### Public-suffix resolution and the label extractor -/

/-- The guarded use of the `psl.parse` collaborator shared by `getLabel` and
`isValidDomainForOrigin`: a parse error, a missing `domain` field and an
empty (falsy) `domain` string are all failures. -/
def pslRegistrableDomain (p : String → Option String) (hostname : String) :
    Option String :=
  match p hostname with
  | none => none
  | some d => if d = "" then none else some d

/-- `getLabel` (validator.ts lines 11–40).  `none` models the thrown
`'Skip Domain not valid'` error, which every caller turns into a skip. -/
def getLabel (p : String → Option String) (domain : String) : Option String :=
  if hasDot domain.data = false then
    none
  else
    match pslRegistrableDomain p domain with
    | none => none
    | some etldPlus1 =>
      if hasDot etldPlus1.data = false then some etldPlus1
      else some ⟨untilDot etldPlus1.data⟩

/-- The per-element preprocessing of the scan loop (validator.ts lines
88–108): URL-parse the element, reject an empty hostname, then extract its
registrable label; `none` means the element is skipped. -/
def elementLabel (up : String → Option URLRec) (p : String → Option String)
    (s : String) : Option String :=
  match up s with
  | none => none
  | some u => if u.hostname = "" then none else getLabel p u.hostname

/-! ### The JSON document structure checks -/

/-- Property lookup on a JavaScript object: the first binding of the key
(the parser collaborator resolves duplicate keys before this point). -/
def lookupField : List (String × JSValue) → String → Option JSValue
  | [], _ => none
  | (k, v) :: rest, key => if k = key then some v else lookupField rest key

/-- JavaScript member access `v.origins` on the value `JSON.parse` produced:
on `null` it throws a TypeError (`.error ()`); on an object it yields the
property; on every other value it yields `undefined` (`none`). -/
def getMember : JSValue → String → Except Unit (Option JSValue)
  | .null, _ => .error ()
  | .obj fields, key => .ok (lookupField fields key)
  | _, _ => .ok none

/-- The all-elements-are-strings check of validator.ts lines 69–73, fused
with the extraction of the string list the scan loop then iterates:
`none` exactly when some element is not a string. -/
def allStrings : List JSValue → Option (List String)
  | [] => some []
  | .str s :: rest =>
    match allStrings rest with
    | none => none
    | some tail => some (s :: tail)
  | _ :: _ => none

/-- The structural-validity predicate of the claims: the parsed value is an
object whose `origins` key holds an array, every element a string. -/
def wellFormedOrigins (v : JSValue) : Bool :=
  match v with
  | .obj fields =>
    match lookupField fields "origins" with
    | some (.arr elems) => (allStrings elems).isSome
    | _ => false
  | _ => false

/-- The `origins` array of a parsed document, when the structure up to the
array is present (elements not yet checked to be strings). -/
def originsArray (v : JSValue) : Option (List JSValue) :=
  match v with
  | .obj fields =>
    match lookupField fields "origins" with
    | some (.arr elems) => some elems
    | _ => none
  | _ => none

/-! ### The scan loop and validateWellKnownJSON -/

/-- The `for (const originStr of webAuthnResp.origins)` loop of
validateWellKnownJSON (validator.ts lines 87–134), with the mutable
`uniqueLabels : Set<string>` and `hitLimits` threaded explicitly.  The
membership set is carried as a duplicate-free list, whose length is the
set's size.  Branch order mirrors the source: a fresh label either trips
the quota (`continue`, skipping the comparison) or is admitted, and only
then is the element compared against the caller origin. -/
def scanOrigins (up : String → Option URLRec) (p : String → Option String)
    (callerOrigin : String) :
    List String → List String → Bool → AuthenticatorStatus
  | [], _, hitLimits =>
    if hitLimits then .BAD_RELYING_PARTY_ID_NO_JSON_MATCH_HIT_LIMITS
    else .BAD_RELYING_PARTY_ID_NO_JSON_MATCH
  | originStr :: rest, uniqueLabels, hitLimits =>
    match up originStr with
    | none => scanOrigins up p callerOrigin rest uniqueLabels hitLimits
    | some originURL =>
      if originURL.hostname = "" then
        scanOrigins up p callerOrigin rest uniqueLabels hitLimits
      else
        match getLabel p originURL.hostname with
        | none => scanOrigins up p callerOrigin rest uniqueLabels hitLimits
        | some lbl =>
          if lbl ∈ uniqueLabels then
            if originMatches callerOrigin originStr then .SUCCESS
            else scanOrigins up p callerOrigin rest uniqueLabels hitLimits
          else if maxLabels ≤ uniqueLabels.length then
            scanOrigins up p callerOrigin rest uniqueLabels true
          else if originMatches callerOrigin originStr then .SUCCESS
          else scanOrigins up p callerOrigin rest (lbl :: uniqueLabels) hitLimits

/-- `validateWellKnownJSON` (validator.ts lines 53–135).  The arms mirror
the source's early returns: JSON parse failure, then the
`!webAuthnResp.origins || !Array.isArray(webAuthnResp.origins)` guard (a
missing, falsy or non-array `origins` member is a parse error, and a
JavaScript array is always truthy, so the guard passes exactly on an
array), then the all-strings loop, then the caller-origin URL parse, then
the scan.  `.error ()` is the TypeError thrown by `webAuthnResp.origins`
when the document parsed to JSON `null`. -/
def validateWellKnownJSON (jp : String → Option JSValue)
    (up : String → Option URLRec) (p : String → Option String)
    (callerOrigin jsonData : String) : Except Unit AuthenticatorStatus :=
  match jp jsonData with
  | none => .ok .BAD_RELYING_PARTY_ID_JSON_PARSE_ERROR
  | some webAuthnResp =>
    match getMember webAuthnResp "origins" with
    | .error e => .error e
    | .ok (some (.arr elems)) =>
      match allStrings elems with
      | none => .ok .BAD_RELYING_PARTY_ID_JSON_PARSE_ERROR
      | some originStrs =>
        match up callerOrigin with
        | none => .ok .BAD_RELYING_PARTY_ID_NO_JSON_MATCH
        | some _ => .ok (scanOrigins up p callerOrigin originStrs [] false)
    | .ok _ => .ok .BAD_RELYING_PARTY_ID_JSON_PARSE_ERROR

/-! ### The suffix authorizer and the orchestrator -/

/-- `isValidDomainForOrigin` (validator.ts lines 215–279).  The only
statement inside the `try` that can throw is `new URL(callerOrigin)`, so
the catch-all `return false` is the `none` arm of the URL parse.  The
final `domainETLDPlus1 === originETLDPlus1 && originHostname.endsWith(...)`
conjunction is rendered as a nested conditional returning the (redundantly
re-checked) `endsWith` bool. -/
def isValidDomainForOrigin (up : String → Option URLRec)
    (p : String → Option String) (callerOrigin domain : String) : Bool :=
  match up callerOrigin with
  | none => false
  | some originURL =>
    if domain = originURL.hostname then true
    else if strEndsWith originURL.hostname ⟨'.' :: domain.data⟩ = false then false
    else
      match pslRegistrableDomain p originURL.hostname,
            pslRegistrableDomain p domain with
      | some originETLDPlus1, some domainETLDPlus1 =>
        if domain = originETLDPlus1 then true
        else if domainETLDPlus1 = originETLDPlus1 then
          strEndsWith originURL.hostname ⟨'.' :: domain.data⟩
        else false
      | none, _ => false
      | some _, none => false

/-- `validateOrigin` (validator.ts lines 289–303).  One try/catch wraps
both the fetch and the matcher, so a fetch failure and a matcher throw are
both folded into `BAD_RELYING_PARTY_ID_NO_JSON_MATCH`. -/
def validateOrigin (fr : String → Except Unit String)
    (jp : String → Option JSValue) (up : String → Option URLRec)
    (p : String → Option String) (callerOrigin domain : String) :
    AuthenticatorStatus :=
  if isValidDomainForOrigin up p callerOrigin domain then .SUCCESS
  else
    match fr domain with
    | .error _ => .BAD_RELYING_PARTY_ID_NO_JSON_MATCH
    | .ok jsonData =>
      match validateWellKnownJSON jp up p callerOrigin jsonData with
      | .error _ => .BAD_RELYING_PARTY_ID_NO_JSON_MATCH
      | .ok status => status

/-! ### Concrete collaborator instances

Finite instances of the external collaborators, used to evaluate the
theorems at concrete inputs.  Each instance agrees with the real
collaborator (`JSON.parse`, WHATWG `new URL`, `psl.parse`) at every input
on which it is defined: in particular `new URL` lowercases the hostname,
`new URL('invalid-url')` throws, `JSON.parse('null')` yields `null`, and
the public-suffix list assigns no registrable domain to `localhost`. -/

/-- `{"origins":[]}` -/
def docEmptyOrigins : String := "\x7b\"origins\":[]\x7d"

/-- `{"origins":["HTTPS://Foo.com"]}` -/
def docUpper : String := "\x7b\"origins\":[\"HTTPS://Foo.com\"]\x7d"

/-- `{"origins":["https://foo.com:9090"]}` -/
def docPorts : String := "\x7b\"origins\":[\"https://foo.com:9090\"]\x7d"

/-- `{"origins":["invalid-url","https://foo.com"]}` -/
def docSkip : String := "\x7b\"origins\":[\"invalid-url\",\"https://foo.com\"]\x7d"

/-- `{"origins":["https://localhost"]}` -/
def docLocalhost : String := "\x7b\"origins\":[\"https://localhost\"]\x7d"

/-- A finite model of `JSON.parse`, agreeing with it at each listed input. -/
def jsonParseW : String → Option JSValue := fun s =>
  if s = "null" then some .null
  else if s = docEmptyOrigins then some (.obj [("origins", .arr [])])
  else if s = docUpper then some (.obj [("origins", .arr [.str "HTTPS://Foo.com"])])
  else if s = docPorts then some (.obj [("origins", .arr [.str "https://foo.com:9090"])])
  else if s = docSkip then
    some (.obj [("origins", .arr [.str "invalid-url", .str "https://foo.com"])])
  else if s = docLocalhost then some (.obj [("origins", .arr [.str "https://localhost"])])
  else none

/-- A finite model of WHATWG `new URL`, agreeing with it at each listed
input (hostnames are lowercased; a string without a scheme throws). -/
def urlParseW : String → Option URLRec := fun s =>
  if s = "https://foo.com" then some ⟨"foo.com"⟩
  else if s = "HTTPS://Foo.com" then some ⟨"foo.com"⟩
  else if s = "https://foo.com:8080" then some ⟨"foo.com"⟩
  else if s = "https://foo.com:9090" then some ⟨"foo.com"⟩
  else if s = "https://sub.foo.com" then some ⟨"sub.foo.com"⟩
  else if s = "https://e1.com" then some ⟨"e1.com"⟩
  else if s = "https://f6.com" then some ⟨"f6.com"⟩
  else if s = "https://localhost" then some ⟨"localhost"⟩
  else none

/-- A finite model of the public-suffix resolver (`psl.parse(h).domain`),
agreeing with the real public suffix list at each listed input. -/
def pslW : String → Option String := fun h =>
  if h = "foo.com" then some "foo.com"
  else if h = "sub.foo.com" then some "foo.com"
  else if h = "e1.com" then some "e1.com"
  else if h = "f6.com" then some "f6.com"
  else none

/-- A fetch collaborator whose every request fails (network error, non-2xx
status, oversize body, timeout or unparsable rpId all throw). -/
def fetchFailW : String → Except Unit String := fun _ => .error ()

/-! ### Helper lemmas about the scan loop -/

/-- One step of the scan loop, phrased through `elementLabel`. -/
theorem scanOrigins_cons (up : String → Option URLRec)
    (p : String → Option String) (caller e : String) (rest uniqueLabels : List String)
    (hitLimits : Bool) :
    scanOrigins up p caller (e :: rest) uniqueLabels hitLimits =
      match elementLabel up p e with
      | none => scanOrigins up p caller rest uniqueLabels hitLimits
      | some lbl =>
        if lbl ∈ uniqueLabels then
          if originMatches caller e then .SUCCESS
          else scanOrigins up p caller rest uniqueLabels hitLimits
        else if maxLabels ≤ uniqueLabels.length then
          scanOrigins up p caller rest uniqueLabels true
        else if originMatches caller e then .SUCCESS
        else scanOrigins up p caller rest (lbl :: uniqueLabels) hitLimits := by
  cases hu : up e with
  | none => simp [scanOrigins, elementLabel, hu]
  | some u =>
    by_cases hh : u.hostname = ""
    · simp [scanOrigins, elementLabel, hu, hh]
    · cases hg : getLabel p u.hostname with
      | none => simp [scanOrigins, elementLabel, hu, hh, hg]
      | some lbl => simp [scanOrigins, elementLabel, hu, hh, hg]

/-- The scan loop only ever produces `SUCCESS`, `NO_JSON_MATCH` or
`NO_JSON_MATCH_HIT_LIMITS`. -/
theorem scanOrigins_result_cases (up : String → Option URLRec)
    (p : String → Option String) (caller : String) :
    ∀ (os uniqueLabels : List String) (hitLimits : Bool),
      scanOrigins up p caller os uniqueLabels hitLimits = .SUCCESS
      ∨ scanOrigins up p caller os uniqueLabels hitLimits
          = .BAD_RELYING_PARTY_ID_NO_JSON_MATCH
      ∨ scanOrigins up p caller os uniqueLabels hitLimits
          = .BAD_RELYING_PARTY_ID_NO_JSON_MATCH_HIT_LIMITS := by
  intro os
  induction os with
  | nil =>
    intro uniqueLabels hitLimits
    cases hitLimits <;> simp [scanOrigins]
  | cons e rest ih =>
    intro uniqueLabels hitLimits
    rw [scanOrigins_cons]
    cases elementLabel up p e with
    | none => exact ih uniqueLabels hitLimits
    | some lbl =>
      by_cases hm : lbl ∈ uniqueLabels <;>
        by_cases hq : maxLabels ≤ uniqueLabels.length <;>
          by_cases ho : originMatches caller e <;>
            simp [hm, hq, ho] <;> first
              | exact ih uniqueLabels hitLimits
              | exact ih uniqueLabels true
              | exact ih (lbl :: uniqueLabels) hitLimits

/-- Once the `hitLimits` flag is set it stays set: a scan started with the
flag up ends in `SUCCESS` or `NO_JSON_MATCH_HIT_LIMITS`. -/
theorem scanOrigins_hitLimits_sticky (up : String → Option URLRec)
    (p : String → Option String) (caller : String) :
    ∀ (os uniqueLabels : List String),
      scanOrigins up p caller os uniqueLabels true = .SUCCESS
      ∨ scanOrigins up p caller os uniqueLabels true
          = .BAD_RELYING_PARTY_ID_NO_JSON_MATCH_HIT_LIMITS := by
  intro os
  induction os with
  | nil => intro uniqueLabels; simp [scanOrigins]
  | cons e rest ih =>
    intro uniqueLabels
    rw [scanOrigins_cons]
    cases elementLabel up p e with
    | none => exact ih uniqueLabels
    | some lbl =>
      by_cases hm : lbl ∈ uniqueLabels <;>
        by_cases hq : maxLabels ≤ uniqueLabels.length <;>
          by_cases ho : originMatches caller e <;>
            simp [hm, hq, ho] <;> first
              | exact ih uniqueLabels
              | exact ih (lbl :: uniqueLabels)

/-- C1: `isValidDomainForOrigin` returns true if and only if the caller
origin parses as a URL with hostname `H` and either (a) `domain` equals `H`
byte-for-byte, or (b) `H` ends with `"." + domain`, the registrable domains
of both `H` and `domain` resolve, and `domain` equals `H`'s registrable
domain or `domain`'s registrable domain equals `H`'s registrable domain;
for every malformed caller origin it returns false. -/
theorem suffixAuthorizer_iff (up : String → Option URLRec)
    (p : String → Option String) (callerOrigin domain : String) :
    isValidDomainForOrigin up p callerOrigin domain = true ↔
      ∃ u, up callerOrigin = some u ∧
        (domain = u.hostname ∨
          (strEndsWith u.hostname ⟨'.' :: domain.data⟩ = true ∧
           ∃ hr dr, pslRegistrableDomain p u.hostname = some hr ∧
             pslRegistrableDomain p domain = some dr ∧
             (domain = hr ∨ dr = hr))) := by
  unfold isValidDomainForOrigin
  cases hu : up callerOrigin with
  | none => simp
  | some u =>
    simp only [Option.some.injEq, exists_eq_left']
    by_cases hd : domain = u.hostname
    · simp [hd]
    · rw [if_neg hd]
      cases hE : strEndsWith u.hostname ⟨'.' :: domain.data⟩ with
      | false => simp [hd]
      | true =>
        rw [if_neg (by simp : ¬(true = false))]
        cases hA : pslRegistrableDomain p u.hostname with
        | none => cases hB : pslRegistrableDomain p domain <;> simp [hd]
        | some hr =>
          cases hB : pslRegistrableDomain p domain with
          | none => simp [hd]
          | some dr =>
            by_cases h1 : domain = hr
            · simp [hd, h1]
            · by_cases h2 : dr = hr
              · simp [hd, h1, h2]
              · simp [hd, h1, h2]

/-- C2: the matcher admits at most 5 distinct registrable labels: from a
state with 4 admitted labels, an element carrying a new (5th) label that
equals the caller origin returns SUCCESS; from a state with 5 admitted
labels, an element carrying a new (6th) label is skipped without being
compared, and if the remaining scan admits no match the result is
NO_JSON_MATCH_HIT_LIMITS. -/
theorem wellKnown_label_quota (up : String → Option URLRec)
    (p : String → Option String) (caller e : String)
    (rest uniqueLabels : List String) (hitLimits : Bool) (lbl : String)
    (hnd : uniqueLabels.Nodup)
    (he : elementLabel up p e = some lbl)
    (hnew : lbl ∉ uniqueLabels) :
    (uniqueLabels.length = 4 → originMatches caller e = true →
        scanOrigins up p caller (e :: rest) uniqueLabels hitLimits = .SUCCESS)
    ∧ (uniqueLabels.length = 5 →
        scanOrigins up p caller (e :: rest) uniqueLabels hitLimits
          = scanOrigins up p caller rest uniqueLabels true)
    ∧ (uniqueLabels.length = 5 →
        scanOrigins up p caller rest uniqueLabels true ≠ .SUCCESS →
        scanOrigins up p caller (e :: rest) uniqueLabels hitLimits
          = .BAD_RELYING_PARTY_ID_NO_JSON_MATCH_HIT_LIMITS) := by
  refine ⟨?_, ?_, ?_⟩
  · intro h4 hm
    rw [scanOrigins_cons, he]
    simp [hnew, h4, maxLabels, hm]
  · intro h5
    rw [scanOrigins_cons, he]
    simp [hnew, h5, maxLabels]
  · intro h5 hns
    rw [scanOrigins_cons, he]
    simp only [hnew, h5, maxLabels, if_false]
    rcases scanOrigins_hitLimits_sticky up p caller rest uniqueLabels with h | h
    · exact absurd h hns
    · simp [hnew, h]

/-- Witness for the label-quota theorem: with labels e1–e4 admitted, a
matching 5th-label element succeeds; with e1–e5 admitted, the same element
carries a 6th label, is not compared, and the scan ends hitting limits. -/
theorem wellKnown_label_quota_witness :
    scanOrigins urlParseW pslW "https://foo.com" ["https://foo.com"]
        ["e1", "e2", "e3", "e4"] false = .SUCCESS
    ∧ scanOrigins urlParseW pslW "https://foo.com" ["https://foo.com"]
        ["e1", "e2", "e3", "e4", "e5"] false
        = .BAD_RELYING_PARTY_ID_NO_JSON_MATCH_HIT_LIMITS := by
  constructor
  · exact (wellKnown_label_quota urlParseW pslW "https://foo.com" "https://foo.com" []
      ["e1", "e2", "e3", "e4"] false "foo" (by decide) (by decide) (by decide)).1
      (by decide) (by decide)
  · exact (wellKnown_label_quota urlParseW pslW "https://foo.com" "https://foo.com" []
      ["e1", "e2", "e3", "e4", "e5"] false "foo" (by decide) (by decide) (by decide)).2.2
      (by decide) (by decide)

/-- C5: once the quota has been exceeded during the scan, a later element
whose registrable label was already admitted and which equals the caller
origin still returns SUCCESS immediately; quota exhaustion never aborts
the scan. -/
theorem wellKnown_match_after_exhaustion (up : String → Option URLRec)
    (p : String → Option String) (caller f e : String)
    (rest uniqueLabels : List String) (hitLimits : Bool) (lblf lble : String)
    (hnd : uniqueLabels.Nodup) (hfull : uniqueLabels.length = 5)
    (hf : elementLabel up p f = some lblf) (hfnew : lblf ∉ uniqueLabels)
    (he : elementLabel up p e = some lble) (hold : lble ∈ uniqueLabels)
    (hm : originMatches caller e = true) :
    scanOrigins up p caller (f :: e :: rest) uniqueLabels hitLimits = .SUCCESS
    ∧ scanOrigins up p caller (e :: rest) uniqueLabels true = .SUCCESS := by
  have h2 : scanOrigins up p caller (e :: rest) uniqueLabels true = .SUCCESS := by
    rw [scanOrigins_cons, he]
    simp [hold, hm]
  refine ⟨?_, h2⟩
  rw [scanOrigins_cons, hf]
  simp [hfnew, hfull, maxLabels, h2]

/-- Witness for the match-after-exhaustion theorem: with five labels
admitted, a sixth-label element trips the quota and the following
already-admitted element still matches the caller. -/
theorem wellKnown_match_after_exhaustion_witness :
    scanOrigins urlParseW pslW "https://e1.com" ["https://f6.com", "https://e1.com"]
        ["e1", "x2", "x3", "x4", "x5"] false = .SUCCESS := by
  exact (wellKnown_match_after_exhaustion urlParseW pslW "https://e1.com"
    "https://f6.com" "https://e1.com" [] ["e1", "x2", "x3", "x4", "x5"] false
    "f6" "e1" (by decide) (by decide) (by decide) (by decide) (by decide)
    (by decide) (by decide)).1

/-- C9: an element that fails to parse as a URL, has an empty host, or has
no extractable registrable label is skipped: the scan continues on the
remaining elements with exactly the same state, so the skipped element
consumes no quota and cannot prevent a later match; concretely, caller
https://foo.com with document docSkip (an invalid URL followed by the
caller itself) returns SUCCESS. -/
theorem wellKnown_skips_unparsable_elements (up : String → Option URLRec)
    (p : String → Option String) (caller e : String)
    (rest uniqueLabels : List String) (hitLimits : Bool)
    (hbad : up e = none ∨ (∃ u, up e = some u ∧ u.hostname = "")
        ∨ (∃ u, up e = some u ∧ u.hostname ≠ "" ∧ getLabel p u.hostname = none)) :
    scanOrigins up p caller (e :: rest) uniqueLabels hitLimits
      = scanOrigins up p caller rest uniqueLabels hitLimits
    ∧ validateWellKnownJSON jsonParseW urlParseW pslW "https://foo.com" docSkip
        = .ok .SUCCESS := by
  constructor
  · have hskip : elementLabel up p e = none := by
      rcases hbad with h | ⟨u, hu, hh⟩ | ⟨u, hu, hh, hg⟩
      · simp [elementLabel, h]
      · simp [elementLabel, hu, hh]
      · simp [elementLabel, hu, hh, hg]
    rw [scanOrigins_cons, hskip]
  · rfl

/-- Witness for the skip theorem, at the unparsable element of docSkip. -/
theorem wellKnown_skips_unparsable_elements_witness :
    scanOrigins urlParseW pslW "https://foo.com" ["invalid-url", "https://foo.com"] [] false
      = scanOrigins urlParseW pslW "https://foo.com" ["https://foo.com"] [] false :=
  (wellKnown_skips_unparsable_elements urlParseW pslW "https://foo.com" "invalid-url"
    ["https://foo.com"] [] false (Or.inl (by decide))).1

/-- C4: the element-vs-caller comparison is a case-sensitive byte
comparison of the raw scheme and host(+port) strings: it holds exactly
when the raw parts are equal as strings; the document carrying only
HTTPS://Foo.com does not match caller https://foo.com (NO_JSON_MATCH), and
caller https://foo.com:8080 against a document carrying only
https://foo.com:9090 yields NO_JSON_MATCH. -/
theorem wellKnown_case_sensitive_comparison :
    (∀ caller e : String, originMatches caller e = true ↔
        (schemeOf e = schemeOf caller ∧ hostOf e = hostOf caller))
    ∧ originMatches "https://foo.com" "HTTPS://Foo.com" = false
    ∧ validateWellKnownJSON jsonParseW urlParseW pslW "https://foo.com" docUpper
        = .ok .BAD_RELYING_PARTY_ID_NO_JSON_MATCH
    ∧ validateWellKnownJSON jsonParseW urlParseW pslW "https://foo.com:8080" docPorts
        = .ok .BAD_RELYING_PARTY_ID_NO_JSON_MATCH := by
  refine ⟨?_, by decide, rfl, rfl⟩
  intro caller e
  simp [originMatches, Bool.and_eq_true, beq_iff_eq]

/-- C3 (amended): validateWellKnownJSON returns JSON_PARSE_ERROR exactly
when the document does not parse as JSON, or parses to a value other than
JSON null that is not an object with an origins key holding an all-string
array (on JSON null the member access throws a TypeError instead of
returning); a document whose origins array is present, all-string and
empty is not a parse error and yields NO_JSON_MATCH when the caller origin
parses. -/
theorem wellKnown_parse_error_characterization (jp : String → Option JSValue)
    (up : String → Option URLRec) (p : String → Option String)
    (caller doc : String) :
    (validateWellKnownJSON jp up p caller doc
        = .ok .BAD_RELYING_PARTY_ID_JSON_PARSE_ERROR
      ↔ (jp doc = none
          ∨ ∃ v, jp doc = some v ∧ v ≠ JSValue.null ∧ wellFormedOrigins v = false))
    ∧ (∀ v, jp doc = some v → originsArray v = some [] →
        ∀ u, up caller = some u →
          validateWellKnownJSON jp up p caller doc
            = .ok .BAD_RELYING_PARTY_ID_NO_JSON_MATCH) := by
  constructor
  · cases hjp : jp doc with
    | none => simp [validateWellKnownJSON, hjp]
    | some v =>
      cases v with
      | null => simp [validateWellKnownJSON, hjp, getMember]
      | bool b => simp [validateWellKnownJSON, hjp, getMember, wellFormedOrigins]
      | num n => simp [validateWellKnownJSON, hjp, getMember, wellFormedOrigins]
      | str s => simp [validateWellKnownJSON, hjp, getMember, wellFormedOrigins]
      | arr elems => simp [validateWellKnownJSON, hjp, getMember, wellFormedOrigins]
      | obj fields =>
        cases hlu : lookupField fields "origins" with
        | none => simp [validateWellKnownJSON, hjp, getMember, wellFormedOrigins, hlu]
        | some w =>
          cases w with
          | arr elems =>
            cases has : allStrings elems with
            | none =>
              simp [validateWellKnownJSON, hjp, getMember, wellFormedOrigins, hlu, has]
            | some os =>
              cases huc : up caller with
              | none =>
                simp [validateWellKnownJSON, hjp, getMember, wellFormedOrigins, hlu,
                  has, huc]
              | some u =>
                rcases scanOrigins_result_cases up p caller os [] false with h | h | h <;>
                  simp [validateWellKnownJSON, hjp, getMember, wellFormedOrigins, hlu,
                    has, huc, h]
          | null => simp [validateWellKnownJSON, hjp, getMember, wellFormedOrigins, hlu]
          | bool b => simp [validateWellKnownJSON, hjp, getMember, wellFormedOrigins, hlu]
          | num n => simp [validateWellKnownJSON, hjp, getMember, wellFormedOrigins, hlu]
          | str s => simp [validateWellKnownJSON, hjp, getMember, wellFormedOrigins, hlu]
          | obj fields2 =>
            simp [validateWellKnownJSON, hjp, getMember, wellFormedOrigins, hlu]
  · intro v hv ha u hu
    cases v with
    | obj fields =>
      cases hlu : lookupField fields "origins" with
      | none => simp [originsArray, hlu] at ha
      | some w =>
        cases w with
        | arr elems =>
          have he : elems = [] := by simpa [originsArray, hlu] using ha
          subst he
          simp [validateWellKnownJSON, hv, getMember, hlu, allStrings, hu, scanOrigins]
        | null => simp [originsArray, hlu] at ha
        | bool b => simp [originsArray, hlu] at ha
        | num n => simp [originsArray, hlu] at ha
        | str s => simp [originsArray, hlu] at ha
        | obj fields2 => simp [originsArray, hlu] at ha
    | null => simp [originsArray] at ha
    | bool b => simp [originsArray] at ha
    | num n => simp [originsArray] at ha
    | str s => simp [originsArray] at ha
    | arr elems => simp [originsArray] at ha

/-- Witness for the parse-error characterization: the empty-origins
document is not a parse error and yields NO_JSON_MATCH. -/
theorem wellKnown_parse_error_characterization_witness :
    validateWellKnownJSON jsonParseW urlParseW pslW "https://foo.com" docEmptyOrigins
      = .ok .BAD_RELYING_PARTY_ID_NO_JSON_MATCH :=
  (wellKnown_parse_error_characterization jsonParseW urlParseW pslW
      "https://foo.com" docEmptyOrigins).2
    (.obj [("origins", .arr [])]) rfl rfl ⟨"foo.com"⟩ rfl

/-- C3 as stated fails on the document "null": JSON.parse succeeds with a
value that is not an object carrying an origins array, yet the matcher
does not return JSON_PARSE_ERROR — the member access on null throws. -/
theorem wellKnown_parse_error_null_case :
    jsonParseW "null" = some JSValue.null
    ∧ wellFormedOrigins JSValue.null = false
    ∧ validateWellKnownJSON jsonParseW urlParseW pslW "https://foo.com" "null"
        ≠ .ok .BAD_RELYING_PARTY_ID_JSON_PARSE_ERROR
    ∧ validateWellKnownJSON jsonParseW urlParseW pslW "https://foo.com" "null"
        = .error () := by
  refine ⟨rfl, rfl, ?_, rfl⟩
  intro h
  have h2 : (Except.error () : Except Unit AuthenticatorStatus)
      = .ok .BAD_RELYING_PARTY_ID_JSON_PARSE_ERROR := h
  exact Except.noConfusion h2

/-- The prefix before the first dot contains no dot. -/
theorem untilDot_no_dot (l : List Char) : hasDot (untilDot l) = false := by
  induction l with
  | nil => simp [untilDot, hasDot]
  | cons c t ih =>
    by_cases hc : c = '.'
    · simp [untilDot, hc, hasDot]
    · simp [untilDot, hc, hasDot, ih]

/-- A list containing a dot splits as its before-first-dot prefix, a dot,
and a remainder. -/
theorem untilDot_append (l : List Char) (h : hasDot l = true) :
    ∃ rest, l = untilDot l ++ '.' :: rest := by
  induction l with
  | nil => simp [hasDot] at h
  | cons c t ih =>
    by_cases hc : c = '.'
    · exact ⟨t, by simp [untilDot, hc]⟩
    · have ht : hasDot t = true := by simpa [hasDot, hc] using h
      obtain ⟨rest, hr⟩ := ih ht
      refine ⟨rest, ?_⟩
      simp only [untilDot, hc, if_false, List.cons_append, List.cons.injEq, true_and]
      exact hr

/-- C8: getLabel fails exactly when the hostname has no dot or the
public-suffix resolver yields no registrable domain; otherwise it returns
the full registrable domain when that domain contains no dot, and the
substring of the registrable domain before its first dot (a dot-free
prefix that the registrable domain extends with a dot) otherwise. -/
theorem getLabel_characterization (p : String → Option String) (h : String) :
    (getLabel p h = none
      ↔ (hasDot h.data = false ∨ pslRegistrableDomain p h = none))
    ∧ (∀ rd, hasDot h.data = true → pslRegistrableDomain p h = some rd →
        (hasDot rd.data = false → getLabel p h = some rd)
        ∧ (hasDot rd.data = true →
            getLabel p h = some ⟨untilDot rd.data⟩
            ∧ hasDot (untilDot rd.data) = false
            ∧ ∃ rest, rd.data = untilDot rd.data ++ '.' :: rest)) := by
  constructor
  · cases hd : hasDot h.data with
    | false => simp [getLabel, hd]
    | true =>
      cases hp : pslRegistrableDomain p h with
      | none => simp [getLabel, hd, hp]
      | some rd =>
        cases hrd : hasDot rd.data with
        | false => simp [getLabel, hd, hp, hrd]
        | true => simp [getLabel, hd, hp, hrd]
  · intro rd hd hp
    constructor
    · intro hrd
      simp [getLabel, hd, hp, hrd]
    · intro hrd
      exact ⟨by simp [getLabel, hd, hp, hrd], untilDot_no_dot rd.data,
        untilDot_append rd.data hrd⟩

/-- Witness for the getLabel characterization: the label of sub.foo.com is
foo, and a dotless host has no label. -/
theorem getLabel_characterization_witness :
    getLabel pslW "sub.foo.com" = some "foo" ∧ getLabel pslW "localhost" = none := by
  constructor
  · exact (((getLabel_characterization pslW "sub.foo.com").2 "foo.com"
      (by decide) (by decide)).2 (by decide)).1
  · exact (getLabel_characterization pslW "localhost").1.mpr (Or.inl (by decide))

/-- C6: when the suffix authorizer does not authorize the pair and the
well-known fetch fails — for any reason: network error, non-2xx status,
oversize body, timeout or an unparsable rpId URL, all of which the fetch
collaborator raises as a throw — validateOrigin returns NO_JSON_MATCH and
never surfaces the failure as any other outcome. -/
theorem validateOrigin_fetch_failure_no_match (fr : String → Except Unit String)
    (jp : String → Option JSValue) (up : String → Option URLRec)
    (p : String → Option String) (caller domain : String)
    (hs : isValidDomainForOrigin up p caller domain = false)
    (hf : fr domain = .error ()) :
    validateOrigin fr jp up p caller domain = .BAD_RELYING_PARTY_ID_NO_JSON_MATCH := by
  simp [validateOrigin, hs, hf]

/-- Witness for the fetch-failure theorem: bar.com is not an authorized
suffix for https://foo.com, and the failing fetch yields NO_JSON_MATCH. -/
theorem validateOrigin_fetch_failure_no_match_witness :
    validateOrigin fetchFailW jsonParseW urlParseW pslW "https://foo.com" "bar.com"
      = .BAD_RELYING_PARTY_ID_NO_JSON_MATCH :=
  validateOrigin_fetch_failure_no_match fetchFailW jsonParseW urlParseW pslW
    "https://foo.com" "bar.com" (by decide) rfl

/-- validateWellKnownJSON either throws or returns one of SUCCESS,
JSON_PARSE_ERROR, NO_JSON_MATCH, NO_JSON_MATCH_HIT_LIMITS. -/
theorem validateWellKnownJSON_ok_cases (jp : String → Option JSValue)
    (up : String → Option URLRec) (p : String → Option String)
    (caller doc : String) :
    validateWellKnownJSON jp up p caller doc = .error ()
    ∨ ∃ s, validateWellKnownJSON jp up p caller doc = .ok s
        ∧ (s = .SUCCESS
           ∨ s = .BAD_RELYING_PARTY_ID_JSON_PARSE_ERROR
           ∨ s = .BAD_RELYING_PARTY_ID_NO_JSON_MATCH
           ∨ s = .BAD_RELYING_PARTY_ID_NO_JSON_MATCH_HIT_LIMITS) := by
  cases hjp : jp doc with
  | none => exact Or.inr ⟨.BAD_RELYING_PARTY_ID_JSON_PARSE_ERROR,
      by simp [validateWellKnownJSON, hjp], by simp⟩
  | some v =>
    cases v with
    | null => exact Or.inl (by simp [validateWellKnownJSON, hjp, getMember])
    | bool b =>
      exact Or.inr ⟨.BAD_RELYING_PARTY_ID_JSON_PARSE_ERROR,
        by simp [validateWellKnownJSON, hjp, getMember], by simp⟩
    | num n =>
      exact Or.inr ⟨.BAD_RELYING_PARTY_ID_JSON_PARSE_ERROR,
        by simp [validateWellKnownJSON, hjp, getMember], by simp⟩
    | str s =>
      exact Or.inr ⟨.BAD_RELYING_PARTY_ID_JSON_PARSE_ERROR,
        by simp [validateWellKnownJSON, hjp, getMember], by simp⟩
    | arr elems =>
      exact Or.inr ⟨.BAD_RELYING_PARTY_ID_JSON_PARSE_ERROR,
        by simp [validateWellKnownJSON, hjp, getMember], by simp⟩
    | obj fields =>
      cases hlu : lookupField fields "origins" with
      | none =>
        exact Or.inr ⟨.BAD_RELYING_PARTY_ID_JSON_PARSE_ERROR,
          by simp [validateWellKnownJSON, hjp, getMember, hlu], by simp⟩
      | some w =>
        cases w with
        | arr elems =>
          cases has : allStrings elems with
          | none =>
            exact Or.inr ⟨.BAD_RELYING_PARTY_ID_JSON_PARSE_ERROR,
              by simp [validateWellKnownJSON, hjp, getMember, hlu, has], by simp⟩
          | some os =>
            cases huc : up caller with
            | none =>
              exact Or.inr ⟨.BAD_RELYING_PARTY_ID_NO_JSON_MATCH,
                by simp [validateWellKnownJSON, hjp, getMember, hlu, has, huc], by simp⟩
            | some u =>
              refine Or.inr ⟨scanOrigins up p caller os [] false,
                by simp [validateWellKnownJSON, hjp, getMember, hlu, has, huc], ?_⟩
              rcases scanOrigins_result_cases up p caller os [] false with h | h | h <;>
                simp [h]
        | null =>
          exact Or.inr ⟨.BAD_RELYING_PARTY_ID_JSON_PARSE_ERROR,
          by simp [validateWellKnownJSON, hjp, getMember, hlu], by simp⟩
        | bool b =>
          exact Or.inr ⟨.BAD_RELYING_PARTY_ID_JSON_PARSE_ERROR,
          by simp [validateWellKnownJSON, hjp, getMember, hlu], by simp⟩
        | num n =>
          exact Or.inr ⟨.BAD_RELYING_PARTY_ID_JSON_PARSE_ERROR,
          by simp [validateWellKnownJSON, hjp, getMember, hlu], by simp⟩
        | str s =>
          exact Or.inr ⟨.BAD_RELYING_PARTY_ID_JSON_PARSE_ERROR,
          by simp [validateWellKnownJSON, hjp, getMember, hlu], by simp⟩
        | obj fields2 =>
          exact Or.inr ⟨.BAD_RELYING_PARTY_ID_JSON_PARSE_ERROR,
          by simp [validateWellKnownJSON, hjp, getMember, hlu], by simp⟩

/-- C7: for every input pair (and every behavior of the collaborators),
validateOrigin terminates in one of SUCCESS (ordinal 0), JSON_PARSE_ERROR
(1), NO_JSON_MATCH (2) or NO_JSON_MATCH_HIT_LIMITS (3); it never returns
BAD_RELYING_PARTY_ID_NOT_SUBDOMAIN_OF_ORIGIN, even though that value
exists in the outcome enumeration with ordinal 4.  (Throws are impossible:
the embedding of validateOrigin is a total function into the outcome type,
its internal try/catch absorbing both fetch and matcher exceptions.) -/
theorem validateOrigin_outcome_range (fr : String → Except Unit String)
    (jp : String → Option JSValue) (up : String → Option URLRec)
    (p : String → Option String) (caller domain : String) :
    (validateOrigin fr jp up p caller domain = .SUCCESS
      ∨ validateOrigin fr jp up p caller domain
          = .BAD_RELYING_PARTY_ID_JSON_PARSE_ERROR
      ∨ validateOrigin fr jp up p caller domain = .BAD_RELYING_PARTY_ID_NO_JSON_MATCH
      ∨ validateOrigin fr jp up p caller domain
          = .BAD_RELYING_PARTY_ID_NO_JSON_MATCH_HIT_LIMITS)
    ∧ validateOrigin fr jp up p caller domain
        ≠ .BAD_RELYING_PARTY_ID_NOT_SUBDOMAIN_OF_ORIGIN
    ∧ statusToNat (validateOrigin fr jp up p caller domain) ≤ 3
    ∧ statusToNat .SUCCESS = 0
    ∧ statusToNat .BAD_RELYING_PARTY_ID_JSON_PARSE_ERROR = 1
    ∧ statusToNat .BAD_RELYING_PARTY_ID_NO_JSON_MATCH = 2
    ∧ statusToNat .BAD_RELYING_PARTY_ID_NO_JSON_MATCH_HIT_LIMITS = 3
    ∧ statusToNat .BAD_RELYING_PARTY_ID_NOT_SUBDOMAIN_OF_ORIGIN = 4 := by
  have hmain : validateOrigin fr jp up p caller domain = .SUCCESS
      ∨ validateOrigin fr jp up p caller domain
          = .BAD_RELYING_PARTY_ID_JSON_PARSE_ERROR
      ∨ validateOrigin fr jp up p caller domain = .BAD_RELYING_PARTY_ID_NO_JSON_MATCH
      ∨ validateOrigin fr jp up p caller domain
          = .BAD_RELYING_PARTY_ID_NO_JSON_MATCH_HIT_LIMITS := by
    by_cases hs : isValidDomainForOrigin up p caller domain
    · exact Or.inl (by simp [validateOrigin, hs])
    · cases hf : fr domain with
      | error e =>
        cases e
        exact Or.inr (Or.inr (Or.inl (by simp [validateOrigin, hs, hf])))
      | ok body =>
        rcases validateWellKnownJSON_ok_cases jp up p caller body with h | ⟨s, h, hr⟩
        · exact Or.inr (Or.inr (Or.inl (by simp [validateOrigin, hs, hf, h])))
        · have hv : validateOrigin fr jp up p caller domain = s := by
            simp [validateOrigin, hs, hf, h]
          rcases hr with h1 | h1 | h1 | h1
          · exact Or.inl (hv.trans (by rw [h1]))
          · exact Or.inr (Or.inl (hv.trans (by rw [h1])))
          · exact Or.inr (Or.inr (Or.inl (hv.trans (by rw [h1]))))
          · exact Or.inr (Or.inr (Or.inr (hv.trans (by rw [h1]))))
  refine ⟨hmain, ?_, ?_, rfl, rfl, rfl, rfl, rfl⟩
  · rcases hmain with h | h | h | h <;> simp [h]
  · rcases hmain with h | h | h | h <;> simp [h, statusToNat]

/-- A successfully extracted label implies the hostname contained a dot. -/
theorem getLabel_some_hasDot (p : String → Option String) (d l : String)
    (h : getLabel p d = some l) : hasDot d.data = true := by
  cases hd : hasDot d.data with
  | false => simp [getLabel, hd] at h
  | true => rfl

/-- The scan can never return SUCCESS when the caller's parsed hostname is
dotless and URL parsing is consistent on raw-equal scheme/host parts:
every element whose raw parts equal the caller's parses to the caller's
dotless hostname and is therefore skipped before the comparison. -/
theorem scanOrigins_dotless_never_success (up : String → Option URLRec)
    (p : String → Option String) (caller : String) (c : URLRec)
    (hdot : hasDot c.hostname.data = false) :
    ∀ os : List String,
      (∀ s ∈ os, schemeOf s = schemeOf caller → hostOf s = hostOf caller →
          (Option.map URLRec.hostname (up s) = none
            ∨ Option.map URLRec.hostname (up s) = some c.hostname)) →
      ∀ (uniqueLabels : List String) (hitLimits : Bool),
        scanOrigins up p caller os uniqueLabels hitLimits ≠ .SUCCESS := by
  intro os
  induction os with
  | nil =>
    intro _ uniqueLabels hitLimits
    cases hitLimits <;> simp [scanOrigins]
  | cons e rest ih =>
    intro hcons uniqueLabels hitLimits
    have hrest : ∀ s ∈ rest, schemeOf s = schemeOf caller → hostOf s = hostOf caller →
        (Option.map URLRec.hostname (up s) = none
          ∨ Option.map URLRec.hostname (up s) = some c.hostname) :=
      fun s hs => hcons s (List.mem_cons_of_mem _ hs)
    rw [scanOrigins_cons]
    cases hel : elementLabel up p e with
    | none => exact ih hrest uniqueLabels hitLimits
    | some lbl =>
      have hnm : originMatches caller e = false := by
        cases hy : originMatches caller e with
        | false => rfl
        | true =>
          exfalso
          have hsch : schemeOf e = schemeOf caller ∧ hostOf e = hostOf caller := by
            simpa [originMatches, Bool.and_eq_true, beq_iff_eq] using hy
          cases hu : up e with
          | none => simp [elementLabel, hu] at hel
          | some u =>
            have hne : ¬ u.hostname = "" := by
              by_contra hne
              simp [elementLabel, hu, hne] at hel
            have hg : getLabel p u.hostname = some lbl := by
              simpa [elementLabel, hu, hne] using hel
            have hud : hasDot u.hostname.data = true :=
              getLabel_some_hasDot p u.hostname lbl hg
            rcases hcons e (List.mem_cons_self e rest) hsch.1 hsch.2 with hc1 | hc1
            · simp [hu] at hc1
            · have : u.hostname = c.hostname := by simpa [hu] using hc1
              rw [this, hdot] at hud
              exact Bool.noConfusion hud
      by_cases hm : lbl ∈ uniqueLabels
      · simp only [hm, if_true, hnm, if_false]
        rw [if_neg (by simp : ¬ (false = true))]
        exact ih hrest uniqueLabels hitLimits
      · by_cases hq : maxLabels ≤ uniqueLabels.length
        · simp only [hm, if_false, hq, if_true]
          exact ih hrest uniqueLabels true
        · simp only [hm, hq, if_false, hnm]
          rw [if_neg (by simp : ¬ (false = true))]
          exact ih hrest (lbl :: uniqueLabels) hitLimits

/-- C10: for a caller origin whose parsed hostname contains no dot (such
as https://localhost), validateWellKnownJSON never returns SUCCESS on a
structurally valid document — even when the origins array contains the
caller origin byte-for-byte — because every element with a dotless
hostname is skipped before the equality comparison; with valid structure
the result is NO_JSON_MATCH or (under quota exhaustion)
NO_JSON_MATCH_HIT_LIMITS.  The consistency hypothesis states that an
element whose raw scheme and host equal the caller's parses (if at all) to
the caller's hostname, as a deterministic URL parser does. -/
theorem wellKnown_dotless_caller_never_success (jp : String → Option JSValue)
    (up : String → Option URLRec) (p : String → Option String)
    (caller doc : String) (v : JSValue) (elems : List JSValue)
    (os : List String) (c : URLRec)
    (hjp : jp doc = some v)
    (harr : originsArray v = some elems)
    (hstr : allStrings elems = some os)
    (hcall : up caller = some c)
    (hdot : hasDot c.hostname.data = false)
    (hcons : ∀ s ∈ os, schemeOf s = schemeOf caller → hostOf s = hostOf caller →
        (Option.map URLRec.hostname (up s) = none
          ∨ Option.map URLRec.hostname (up s) = some c.hostname)) :
    validateWellKnownJSON jp up p caller doc ≠ .ok .SUCCESS
    ∧ (validateWellKnownJSON jp up p caller doc
          = .ok .BAD_RELYING_PARTY_ID_NO_JSON_MATCH
       ∨ validateWellKnownJSON jp up p caller doc
          = .ok .BAD_RELYING_PARTY_ID_NO_JSON_MATCH_HIT_LIMITS) := by
  have hval : validateWellKnownJSON jp up p caller doc
      = .ok (scanOrigins up p caller os [] false) := by
    cases v with
    | obj fields =>
      cases hlu : lookupField fields "origins" with
      | none => simp [originsArray, hlu] at harr
      | some w =>
        cases w with
        | arr elems2 =>
          have he : elems2 = elems := by simpa [originsArray, hlu] using harr
          subst he
          simp [validateWellKnownJSON, hjp, getMember, hlu, hstr, hcall]
        | null => simp [originsArray, hlu] at harr
        | bool b => simp [originsArray, hlu] at harr
        | num n => simp [originsArray, hlu] at harr
        | str s => simp [originsArray, hlu] at harr
        | obj fields2 => simp [originsArray, hlu] at harr
    | null => simp [originsArray] at harr
    | bool b => simp [originsArray] at harr
    | num n => simp [originsArray] at harr
    | str s => simp [originsArray] at harr
    | arr elems2 => simp [originsArray] at harr
  have hscan : scanOrigins up p caller os [] false ≠ .SUCCESS :=
    scanOrigins_dotless_never_success up p caller c hdot os hcons [] false
  constructor
  · rw [hval]
    intro hcontra
    exact hscan (by injection hcontra)
  · rw [hval]
    rcases scanOrigins_result_cases up p caller os [] false with h | h | h
    · exact absurd h hscan
    · exact Or.inl (by rw [h])
    · exact Or.inr (by rw [h])

/-- Witness for the dotless-caller theorem: caller https://localhost
against a document listing exactly https://localhost yields NO_JSON_MATCH,
not SUCCESS. -/
theorem wellKnown_dotless_caller_never_success_witness :
    validateWellKnownJSON jsonParseW urlParseW pslW "https://localhost" docLocalhost
      ≠ .ok .SUCCESS :=
  (wellKnown_dotless_caller_never_success jsonParseW urlParseW pslW
    "https://localhost" docLocalhost (.obj [("origins", .arr [.str "https://localhost"])])
    [.str "https://localhost"] ["https://localhost"] ⟨"localhost"⟩
    rfl rfl rfl rfl (by decide) (by decide)).1
